import Mathlib

/-!
Verification of the SecureSync peer-to-peer secure chat core.

The development shallowly embeds the two source files of the repository:

* `src/lib/link.ts` — the token codec (`generateLinkHash` / `parseLinkHash`),
  the handshake coordinator handlers (`startHost`, `handleHostProcessAnswer`,
  `handleGuestLoad`), the data-channel message handler and `waitForIce`;
* the security module — `encryptData` / `decryptData` over AES-GCM and the
  base64 helpers `arrayBufferToBase64` / `base64ToArrayBuffer`.

External collaborators are embedded as follows.  The platform base64
primitives `btoa` / `atob` are implemented concretely (RFC 4648, the behaviour
every browser implements), and `JSON.stringify` / `JSON.parse` are implemented
concretely over an inductive `Json` model with a proved round trip.  The
LZ-String compression library, the WebCrypto AES-GCM cipher and the
TextEncoder / TextDecoder pair are black-box collaborators of the repository
(declared, not defined, in its sources), so each is modelled as a structure
packaging the operations with its documented contract.
-/

namespace SecureSync

/-! ## Bytes and the platform base64 primitives (`btoa` / `atob`)

`Uint8Array` cells are bytes, so buffers are lists of `Fin 256`. -/

abbrev Byte := Fin 256

/-- The RFC 4648 base64 alphabet, as the character for a six-bit group. -/
def b64Char (n : Fin 64) : Char :=
  if n.val < 26 then Char.ofNat (65 + n.val)
  else if n.val < 52 then Char.ofNat (97 + (n.val - 26))
  else if n.val < 62 then Char.ofNat (48 + (n.val - 52))
  else if n.val = 62 then '+'
  else '/'

/-- Inverse of the base64 alphabet; `none` on characters outside it. -/
def b64Val (c : Char) : Option (Fin 64) :=
  if h : 65 ≤ c.toNat ∧ c.toNat ≤ 90 then some ⟨c.toNat - 65, by omega⟩
  else if h : 97 ≤ c.toNat ∧ c.toNat ≤ 122 then some ⟨c.toNat - 97 + 26, by omega⟩
  else if h : 48 ≤ c.toNat ∧ c.toNat ≤ 57 then some ⟨c.toNat - 48 + 52, by omega⟩
  else if c = '+' then some ⟨62, by omega⟩
  else if c = '/' then some ⟨63, by omega⟩
  else none

/-- Base64 encoding of a byte sequence, with `=` padding (what `btoa` emits). -/
def b64EncodeBytes : List Byte → List Char
  | [] => []
  | [a] =>
    [b64Char ⟨a.val / 4, by have := a.isLt; omega⟩,
     b64Char ⟨a.val % 4 * 16, by have := a.isLt; omega⟩, '=', '=']
  | [a, b] =>
    [b64Char ⟨a.val / 4, by have := a.isLt; omega⟩,
     b64Char ⟨a.val % 4 * 16 + b.val / 16, by have := a.isLt; have := b.isLt; omega⟩,
     b64Char ⟨b.val % 16 * 4, by have := b.isLt; omega⟩, '=']
  | a :: b :: c :: rest =>
    b64Char ⟨a.val / 4, by have := a.isLt; omega⟩ ::
    b64Char ⟨a.val % 4 * 16 + b.val / 16, by have := a.isLt; have := b.isLt; omega⟩ ::
    b64Char ⟨b.val % 16 * 4 + c.val / 64, by have := b.isLt; have := c.isLt; omega⟩ ::
    b64Char ⟨c.val % 64, by omega⟩ :: b64EncodeBytes rest

/-- Base64 decoding to a byte sequence; `none` on anything `atob` rejects
(bad length, characters outside the alphabet, misplaced padding). -/
def b64DecodeBytes : List Char → Option (List Byte)
  | [] => some []
  | c1 :: c2 :: c3 :: c4 :: rest =>
    match b64Val c1, b64Val c2 with
    | some v1, some v2 =>
      if c3 = '=' then
        if c4 = '=' ∧ rest = [] then
          some [⟨v1.val * 4 + v2.val / 16, by have := v1.isLt; have := v2.isLt; omega⟩]
        else none
      else
        match b64Val c3 with
        | some v3 =>
          if c4 = '=' then
            if rest = [] then
              some [⟨v1.val * 4 + v2.val / 16, by have := v1.isLt; have := v2.isLt; omega⟩,
                    ⟨v2.val % 16 * 16 + v3.val / 4, by have := v2.isLt; have := v3.isLt; omega⟩]
            else none
          else
            match b64Val c4 with
            | some v4 =>
              (b64DecodeBytes rest).map (fun bs =>
                ⟨v1.val * 4 + v2.val / 16, by have := v1.isLt; have := v2.isLt; omega⟩ ::
                ⟨v2.val % 16 * 16 + v3.val / 4, by have := v2.isLt; have := v3.isLt; omega⟩ ::
                ⟨v3.val % 4 * 64 + v4.val, by have := v3.isLt; have := v4.isLt; omega⟩ :: bs)
            | none => none
        | none => none
    | _, _ => none
  | _ => none

theorem b64Val_b64Char : ∀ n : Fin 64, b64Val (b64Char n) = some n := by decide

theorem b64Char_ne_eq : ∀ n : Fin 64, b64Char n ≠ '=' := by decide

theorem b64DecodeBytes_b64EncodeBytes :
    ∀ bs : List Byte, b64DecodeBytes (b64EncodeBytes bs) = some bs
  | [] => by simp [b64EncodeBytes, b64DecodeBytes]
  | [a] => by
    have := a.isLt
    simp [b64EncodeBytes, b64DecodeBytes, b64Val_b64Char, Fin.ext_iff]
    omega
  | [a, b] => by
    have := a.isLt
    have := b.isLt
    simp [b64EncodeBytes, b64DecodeBytes, b64Val_b64Char, b64Char_ne_eq, Fin.ext_iff]
    omega
  | a :: b :: c :: rest => by
    have := a.isLt
    have := b.isLt
    have := c.isLt
    have ih := b64DecodeBytes_b64EncodeBytes rest
    simp [b64EncodeBytes, b64DecodeBytes, b64Val_b64Char, b64Char_ne_eq, ih, Fin.ext_iff]
    omega

/-! ## The binary-string bridge and the platform `btoa` / `atob` -/

/-- `String.fromCharCode` on one byte, as used to build a binary string. -/
def byteToChar (b : Byte) : Char := Char.ofNat b.val

/-- Reading `charCodeAt(i)` into a `Uint8Array` cell (the store coerces modulo 256). -/
def charCodeByte (c : Char) : Byte := ⟨c.toNat % 256, by omega⟩

/-- `btoa` requires every character of its input to be a code point below 256. -/
def charToByte (c : Char) : Option Byte :=
  if h : c.toNat < 256 then some ⟨c.toNat, h⟩ else none

/-- The code points of a binary string, checked below 256 one character at a
time (the validity scan `btoa` performs). -/
def binaryCodes : List Char → Option (List Byte)
  | [] => some []
  | c :: cs =>
    match charToByte c with
    | some b => (binaryCodes cs).map (fun bs => b :: bs)
    | none => none

/-- The platform `btoa`: reject non-latin1 input, else base64-encode the codes.
`none` models the `InvalidCharacterError` it throws. -/
def btoa (s : String) : Option String :=
  (binaryCodes s.data).map (fun bs => String.mk (b64EncodeBytes bs))

/-- The platform `atob`: base64-decode to a binary string; `none` models the
`InvalidCharacterError` it throws on malformed input. -/
def atob (s : String) : Option String :=
  (b64DecodeBytes s.data).map (fun bs => String.mk (bs.map byteToChar))

theorem toNat_byteToChar (b : Byte) : (byteToChar b).toNat = b.val := by
  have hv : b.val.isValidChar := Or.inl (by have := b.isLt; omega)
  simp [byteToChar, Char.ofNat, hv, Char.ofNatAux, Char.toNat, UInt32.toNat,
    BitVec.toNat_ofNatLt]

theorem charToByte_byteToChar (b : Byte) : charToByte (byteToChar b) = some b := by
  have hb := b.isLt
  simp [charToByte, toNat_byteToChar]

theorem charCodeByte_byteToChar (b : Byte) : charCodeByte (byteToChar b) = b := by
  have hb := b.isLt
  apply Fin.ext
  simp [charCodeByte, toNat_byteToChar]

theorem binaryCodes_byteToChar :
    ∀ bs : List Byte, binaryCodes (bs.map byteToChar) = some bs
  | [] => rfl
  | b :: bs => by
    simp [binaryCodes, charToByte_byteToChar, binaryCodes_byteToChar bs]

/-! ## The security module's base64 helpers -/

/-- `arrayBufferToBase64` from the security module: build a binary string from
the buffer's bytes with `String.fromCharCode` and hand it to `btoa`. -/
def arrayBufferToBase64 (buffer : List Byte) : Option String :=
  btoa (String.mk (buffer.map byteToChar))

/-- `base64ToArrayBuffer` from the security module: `atob`, then store each
character code of the binary string into a fresh `Uint8Array`. -/
def base64ToArrayBuffer (base64 : String) : Option (List Byte) :=
  (atob base64).map (fun bin => bin.data.map charCodeByte)

/-- On every byte buffer, `arrayBufferToBase64` succeeds and yields exactly the
base64 encoding of the buffer. -/
theorem arrayBufferToBase64_eq (buffer : List Byte) :
    arrayBufferToBase64 buffer = some (String.mk (b64EncodeBytes buffer)) := by
  simp [arrayBufferToBase64, btoa, binaryCodes_byteToChar]

/-- C10: for every byte buffer b, `base64ToArrayBuffer (arrayBufferToBase64 b)`
returns a buffer with exactly the bytes of b — the internal base64 helpers used
by key export/import and by the cipher layer are mutually inverse on all byte
sequences. -/
theorem c10_base64_helpers_roundtrip (b : List Byte) :
    (arrayBufferToBase64 b).bind base64ToArrayBuffer = some b := by
  rw [arrayBufferToBase64_eq]
  simp [base64ToArrayBuffer, atob, b64DecodeBytes_b64EncodeBytes]
  rw [show charCodeByte ∘ byteToChar = id from funext charCodeByte_byteToChar, List.map_id]

/-! ## JSON values and the platform `JSON.stringify` / `JSON.parse`

JSON data is modelled inductively; numbers are exact integers (the only
numbers the repository's payloads carry).  `jsonStringify` emits exactly the
compact form `JSON.stringify` produces, and `jsonParse` is a strict parser
returning `none` where `JSON.parse` throws. -/

inductive Json where
  | null : Json
  | bool (b : Bool) : Json
  | num (n : Int) : Json
  | str (s : String) : Json
  | arr (elems : List Json) : Json
  | obj (fields : List (String × Json)) : Json

/-- Lowercase hex digit character for a value below 16. -/
def hexDigit (n : Nat) : Char :=
  if n < 10 then Char.ofNat (48 + n) else Char.ofNat (87 + n)

/-- Value of a hex digit character; `none` otherwise. -/
def hexVal (c : Char) : Option Nat :=
  if 48 ≤ c.toNat ∧ c.toNat ≤ 57 then some (c.toNat - 48)
  else if 97 ≤ c.toNat ∧ c.toNat ≤ 102 then some (c.toNat - 87)
  else if 65 ≤ c.toNat ∧ c.toNat ≤ 70 then some (c.toNat - 55)
  else none

/-- The escape sequence `JSON.stringify` emits for one character of a string. -/
def escChar (c : Char) : List Char :=
  if c = '"' then ['\\', '"']
  else if c = '\\' then ['\\', '\\']
  else if c = '\n' then ['\\', 'n']
  else if c = '\t' then ['\\', 't']
  else if c = '\r' then ['\\', 'r']
  else if c = '\x08' then ['\\', 'b']
  else if c = '\x0c' then ['\\', 'f']
  else if c.toNat < 32 then
    ['\\', 'u', '0', '0', hexDigit (c.toNat / 16), hexDigit (c.toNat % 16)]
  else [c]

def escList : List Char → List Char
  | [] => []
  | c :: cs => escChar c ++ escList cs

def digitChar (d : Nat) : Char := Char.ofNat (48 + d)

/-- Decimal digits of a natural number, most significant first. -/
def natChars (n : Nat) : List Char :=
  if n = 0 then ['0'] else ((Nat.digits 10 n).reverse).map digitChar

def isDigitCh (c : Char) : Bool := 48 ≤ c.toNat && c.toNat ≤ 57

def digitVal (c : Char) : Nat := c.toNat - 48

mutual

/-- The characters of the literal `null` keyword. -/
def nullChars : List Char := ['n', 'u', 'l', 'l']

/-- The characters of the literal `true` keyword. -/
def trueChars : List Char := ['t', 'r', 'u', 'e']

/-- The characters of the literal `false` keyword. -/
def falseChars : List Char := ['f', 'a', 'l', 's', 'e']

/-- The compact rendering `JSON.stringify` produces (no whitespace). -/
def render : Json → List Char
  | .null => nullChars
  | .bool b => if b then trueChars else falseChars
  | .num n => if n < 0 then '-' :: natChars n.natAbs else natChars n.toNat
  | .str s => '"' :: (escList s.data ++ ['"'])
  | .arr [] => ['[', ']']
  | .arr (x :: xs) => '[' :: (render x ++ renderArrTail xs ++ [']'])
  | .obj [] => ['{', '}']
  | .obj ((k, v) :: fs) => '{' :: (renderMember k v ++ renderObjTail fs ++ ['}'])
termination_by v => sizeOf v
decreasing_by
  all_goals simp_wf
  all_goals omega

def renderArrTail : List Json → List Char
  | [] => []
  | x :: xs => ',' :: (render x ++ renderArrTail xs)
termination_by xs => sizeOf xs
decreasing_by
  all_goals simp_wf
  all_goals omega

def renderMember (k : String) (v : Json) : List Char :=
  '"' :: (escList k.data ++ ['"', ':'] ++ render v)
termination_by 1 + sizeOf v
decreasing_by
  all_goals simp_wf
  all_goals omega

def renderObjTail : List (String × Json) → List Char
  | [] => []
  | (k, v) :: fs => ',' :: (renderMember k v ++ renderObjTail fs)
termination_by fs => sizeOf fs
decreasing_by
  all_goals simp_wf
  all_goals omega

end

/-- Body of a JSON string literal after the opening quote: unescape until the
closing quote, rejecting raw control characters and bad escapes. -/
def parseStrChars : List Char → Option (List Char × List Char)
  | [] => none
  | c :: rest =>
    if c = '"' then some ([], rest)
    else if c = '\\' then
      match rest with
      | [] => none
      | e :: rs =>
        if e = '"' then (parseStrChars rs).map (fun p => ('"' :: p.1, p.2))
        else if e = '\\' then (parseStrChars rs).map (fun p => ('\\' :: p.1, p.2))
        else if e = '/' then (parseStrChars rs).map (fun p => ('/' :: p.1, p.2))
        else if e = 'n' then (parseStrChars rs).map (fun p => ('\n' :: p.1, p.2))
        else if e = 't' then (parseStrChars rs).map (fun p => ('\t' :: p.1, p.2))
        else if e = 'r' then (parseStrChars rs).map (fun p => ('\r' :: p.1, p.2))
        else if e = 'b' then (parseStrChars rs).map (fun p => ('\x08' :: p.1, p.2))
        else if e = 'f' then (parseStrChars rs).map (fun p => ('\x0c' :: p.1, p.2))
        else if e = 'u' then
          match rs with
          | h1 :: h2 :: h3 :: h4 :: rs2 =>
            match hexVal h1, hexVal h2, hexVal h3, hexVal h4 with
            | some a, some b, some c2, some d =>
              (parseStrChars rs2).map
                (fun p => (Char.ofNat (a * 4096 + b * 256 + c2 * 16 + d) :: p.1, p.2))
            | _, _, _, _ => none
          | _ => none
        else none
    else if c.toNat < 32 then none
    else (parseStrChars rest).map (fun p => (c :: p.1, p.2))

/-- Greedily consume decimal digits, folding them onto an accumulator. -/
def parseDigits : List Char → Nat → Nat × List Char
  | [], acc => (acc, [])
  | c :: cs, acc => if isDigitCh c then parseDigits cs (acc * 10 + digitVal c) else (acc, c :: cs)

mutual

/-- Parse one JSON value from the front of the input; returns the value and
the unconsumed remainder.  The fuel bounds nesting; every recursive call
decrements it. -/
def parseVal : Nat → List Char → Option (Json × List Char)
  | 0, _ => none
  | fuel + 1, input =>
    match input with
    | [] => none
    | c :: cs =>
      if c = 'n' then
        match cs with
        | 'u' :: 'l' :: 'l' :: rest => some (.null, rest)
        | _ => none
      else if c = 't' then
        match cs with
        | 'r' :: 'u' :: 'e' :: rest => some (.bool true, rest)
        | _ => none
      else if c = 'f' then
        match cs with
        | 'a' :: 'l' :: 's' :: 'e' :: rest => some (.bool false, rest)
        | _ => none
      else if c = '"' then
        (parseStrChars cs).map (fun p => (.str (String.mk p.1), p.2))
      else if c = '-' then
        match cs with
        | [] => none
        | d :: ds =>
          if isDigitCh d then
            let p := parseDigits ds (digitVal d)
            some (.num (-(p.1 : Int)), p.2)
          else none
      else if isDigitCh c then
        let p := parseDigits cs (digitVal c)
        some (.num (p.1 : Int), p.2)
      else if c = '[' then
        match cs with
        | [] => none
        | d :: ds =>
          if d = ']' then some (.arr [], ds)
          else (parseItems fuel (d :: ds)).map (fun p => (.arr p.1, p.2))
      else if c = '{' then
        match cs with
        | [] => none
        | d :: ds =>
          if d = '}' then some (.obj [], ds)
          else (parseMembers fuel (d :: ds)).map (fun p => (.obj p.1, p.2))
      else none

/-- Parse the non-empty element list of an array together with its closing
bracket. -/
def parseItems : Nat → List Char → Option (List Json × List Char)
  | 0, _ => none
  | fuel + 1, input =>
    match parseVal fuel input with
    | none => none
    | some (v, r) =>
      match r with
      | ']' :: rest => some ([v], rest)
      | ',' :: rest => (parseItems fuel rest).map (fun p => (v :: p.1, p.2))
      | _ => none

/-- Parse the non-empty member list of an object together with its closing
brace. -/
def parseMembers : Nat → List Char → Option (List (String × Json) × List Char)
  | 0, _ => none
  | fuel + 1, input =>
    match input with
    | '"' :: cs =>
      match parseStrChars cs with
      | none => none
      | some (kcs, r1) =>
        match r1 with
        | ':' :: r2 =>
          match parseVal fuel r2 with
          | none => none
          | some (v, r3) =>
            match r3 with
            | '}' :: rest => some ([(String.mk kcs, v)], rest)
            | ',' :: rest =>
              (parseMembers fuel rest).map (fun p => ((String.mk kcs, v) :: p.1, p.2))
            | _ => none
        | _ => none
    | _ => none

end

/-- `JSON.parse` over a character list: one value, whole input consumed. -/
def jsonParseChars (cs : List Char) : Option Json :=
  match parseVal (cs.length + 1) cs with
  | some (v, []) => some v
  | _ => none

/-- The platform `JSON.parse`; `none` models the `SyntaxError` it throws. -/
def jsonParse (s : String) : Option Json := jsonParseChars s.data

/-- The platform `JSON.stringify`. -/
def jsonStringify (v : Json) : String := String.mk (render v)

/-! ### Round trip of the JSON codec: character-level lemmas -/

theorem toNatOfNatLt {n : Nat} (h : n < 55296) : (Char.ofNat n).toNat = n := by
  have hv : n.isValidChar := Or.inl h
  simp [Char.ofNat, hv, Char.ofNatAux, Char.toNat, UInt32.toNat, BitVec.toNat_ofNatLt]

theorem char_ne_of_toNat_ne {c d : Char} (h : c.toNat ≠ d.toNat) : c ≠ d :=
  fun hc => h (hc ▸ rfl)

theorem hexVal_hexDigit : ∀ n, n < 16 → hexVal (hexDigit n) = some n := by decide

theorem toNat_digitChar (d : Nat) (h : d < 10) : (digitChar d).toNat = 48 + d := by
  simp [digitChar, toNatOfNatLt (show 48 + d < 55296 by omega)]

theorem isDigitCh_digitChar (d : Nat) (h : d < 10) : isDigitCh (digitChar d) = true := by
  simp [isDigitCh, toNat_digitChar d h]
  omega

theorem digitVal_digitChar (d : Nat) (h : d < 10) : digitVal (digitChar d) = d := by
  simp [digitVal, toNat_digitChar d h]

/-- A context that cannot steal trailing characters from a rendered number. -/
def okAfter : List Char → Prop
  | [] => True
  | c :: _ => isDigitCh c = false

theorem parseDigits_map_digitChar :
    ∀ (ds : List Nat) (acc : Nat) (rest : List Char), (∀ d ∈ ds, d < 10) → okAfter rest →
      parseDigits (ds.map digitChar ++ rest) acc = (ds.foldl (fun a d => a * 10 + d) acc, rest)
  | [], acc, rest, _, hrest => by
    cases rest with
    | nil => rfl
    | cons c cs => simp only [okAfter] at hrest; simp [parseDigits, hrest]
  | d :: ds, acc, rest, hds, hrest => by
    have hd : d < 10 := hds d (by simp)
    have ih := parseDigits_map_digitChar ds (acc * 10 + d) rest
      (fun x hx => hds x (by simp [hx])) hrest
    simp [parseDigits, isDigitCh_digitChar d hd, digitVal_digitChar d hd, ih]

theorem foldr_eq_ofDigits :
    ∀ l : List Nat, l.foldr (fun d a => a * 10 + d) 0 = Nat.ofDigits 10 l
  | [] => by simp [Nat.ofDigits]
  | d :: l => by
    simp [Nat.ofDigits, foldr_eq_ofDigits l]
    omega

theorem foldl_reverse_digits (n : Nat) :
    ((Nat.digits 10 n).reverse).foldl (fun a d => a * 10 + d) 0 = n := by
  rw [List.foldl_reverse]
  have : (Nat.digits 10 n).foldr (fun x y => y * 10 + x) 0
      = (Nat.digits 10 n).foldr (fun d a => a * 10 + d) 0 := rfl
  rw [this, foldr_eq_ofDigits, Nat.ofDigits_digits]

theorem parseStrChars_escList :
    ∀ (cs rest : List Char), parseStrChars (escList cs ++ ('"' :: rest)) = some (cs, rest)
  | [], rest => by
    rw [show escList [] ++ ('"' :: rest) = '"' :: rest by simp [escList]]
    rw [parseStrChars.eq_def]
    simp
  | c :: cs, rest => by
    have ih := parseStrChars_escList cs rest
    by_cases h1 : c = '"'
    · subst h1
      simp only [escList, escChar, if_pos rfl, List.cons_append, List.append_assoc]
      rw [parseStrChars.eq_def]
      simp [ih]
    by_cases h2 : c = '\\'
    · subst h2
      simp only [escList, escChar]
      norm_num
      rw [parseStrChars.eq_def]
      simp [ih]
    by_cases h3 : c = '\n'
    · subst h3
      simp only [escList, escChar]
      norm_num
      rw [parseStrChars.eq_def]
      simp [ih]
    by_cases h4 : c = '\t'
    · subst h4
      simp only [escList, escChar]
      norm_num
      rw [parseStrChars.eq_def]
      simp [ih]
    by_cases h5 : c = '\r'
    · subst h5
      simp only [escList, escChar]
      norm_num
      rw [parseStrChars.eq_def]
      simp [ih]
    by_cases h6 : c = '\x08'
    · subst h6
      simp only [escList, escChar]
      norm_num
      rw [parseStrChars.eq_def]
      simp [ih]
    by_cases h7 : c = '\x0c'
    · subst h7
      simp only [escList, escChar]
      norm_num
      rw [parseStrChars.eq_def]
      simp [ih]
    by_cases h8 : c.toNat < 32
    · have e1 : hexVal (hexDigit (c.toNat / 16)) = some (c.toNat / 16) :=
        hexVal_hexDigit _ (by omega)
      have e2 : hexVal (hexDigit (c.toNat % 16)) = some (c.toNat % 16) :=
        hexVal_hexDigit _ (by omega)
      have h0 : hexVal '0' = some 0 := by decide
      simp only [escList, escChar, h1, h2, h3, h4, h5, h6, h7, if_neg, if_pos h8,
        ite_false, ite_true, List.cons_append, List.append_assoc]
      rw [parseStrChars.eq_def]
      simp [e1, e2, h0, ih]
      have hv : c.toNat / 16 * 16 + c.toNat % 16 = c.toNat := by omega
      simp [hv, Char.ofNat_toNat]
    · simp only [escList, escChar, h1, h2, h3, h4, h5, h6, h7, h8, if_neg, ite_false,
        List.cons_append, List.singleton_append]
      rw [parseStrChars.eq_def]
      simp [h1, h2, h8, ih]

/-! ### Round trip of the JSON codec: fuel accounting -/

mutual

/-- Node count of a JSON value, the fuel budget its parse consumes. -/
def numNodes : Json → Nat
  | .null => 1
  | .bool _ => 1
  | .num _ => 1
  | .str _ => 1
  | .arr xs => 2 + numNodesList xs
  | .obj fs => 2 + numNodesObj fs
termination_by v => sizeOf v
decreasing_by
  all_goals simp_wf
  all_goals omega

def numNodesList : List Json → Nat
  | [] => 0
  | x :: xs => numNodes x + numNodesList xs
termination_by xs => sizeOf xs
decreasing_by
  all_goals simp_wf
  all_goals omega

def numNodesObj : List (String × Json) → Nat
  | [] => 0
  | (_, v) :: fs => numNodes v + numNodesObj fs
termination_by fs => sizeOf fs
decreasing_by
  all_goals simp_wf
  all_goals omega

end

theorem numNodes_pos (v : Json) : 1 ≤ numNodes v := by
  cases v <;> simp [numNodes] <;> omega

theorem data_mk (cs : List Char) : (String.mk cs).data = cs := rfl

theorem mk_data (s : String) : String.mk s.data = s := rfl

theorem digitChar_zero : digitChar 0 = '0' := by decide

/-- `natChars` always starts with a digit, and `parseDigits` reads the number
back whenever the following context does not begin with a digit. -/
theorem parseDigits_natChars (m : Nat) (rest : List Char) (h : okAfter rest) :
    ∃ d ds, natChars m = digitChar d :: ds ∧ d < 10 ∧
      parseDigits (ds ++ rest) (digitVal (digitChar d)) = (m, rest) := by
  by_cases hm : m = 0
  · subst hm
    refine ⟨0, [], by simp [natChars, digitChar_zero], by omega, ?_⟩
    rw [digitVal_digitChar 0 (by omega)]
    have := parseDigits_map_digitChar [] 0 rest (by simp) h
    simpa using this
  · have hne : Nat.digits 10 m ≠ [] := Nat.digits_ne_nil_iff_ne_zero.mpr hm
    have hrne : (Nat.digits 10 m).reverse ≠ [] := by simpa using hne
    obtain ⟨d, ds, hrev⟩ := List.exists_cons_of_ne_nil hrne
    have hmem : ∀ x ∈ d :: ds, x < 10 := by
      intro x hx
      have : x ∈ (Nat.digits 10 m).reverse := by rw [hrev]; exact hx
      exact Nat.digits_lt_base (by omega) (List.mem_reverse.mp this)
    have hd : d < 10 := hmem d (by simp)
    refine ⟨d, ds.map digitChar, ?_, hd, ?_⟩
    · simp [natChars, hm, hrev]
    · rw [digitVal_digitChar d hd]
      rw [parseDigits_map_digitChar ds d rest (fun x hx => hmem x (by simp [hx])) h]
      have hfold := foldl_reverse_digits m
      rw [hrev] at hfold
      simp only [List.foldl_cons] at hfold
      rw [show 0 * 10 + d = d by omega] at hfold
      rw [hfold]

theorem isDigitCh_ne (c : Char) (h : isDigitCh c = true) :
    c ≠ 'n' ∧ c ≠ 't' ∧ c ≠ 'f' ∧ c ≠ '"' ∧ c ≠ '-' ∧ c ≠ '[' ∧ c ≠ '{' := by
  simp [isDigitCh] at h
  refine ⟨?_, ?_, ?_, ?_, ?_, ?_, ?_⟩ <;>
    apply char_ne_of_toNat_ne
  · rw [show ('n').toNat = 110 from rfl]; omega
  · rw [show ('t').toNat = 116 from rfl]; omega
  · rw [show ('f').toNat = 102 from rfl]; omega
  · rw [show ('"').toNat = 34 from rfl]; omega
  · rw [show ('-').toNat = 45 from rfl]; omega
  · rw [show ('[').toNat = 91 from rfl]; omega
  · rw [show ('{').toNat = 123 from rfl]; omega

/-- Every rendering is nonempty and never starts with a closing bracket. -/
theorem render_head (v : Json) :
    ∃ c t, render v = c :: t ∧ c ≠ ']' := by
  cases v with
  | null => exact ⟨'n', ['u', 'l', 'l'], by simp [render, nullChars], by decide⟩
  | bool b =>
    cases b with
    | false => exact ⟨'f', ['a', 'l', 's', 'e'], by simp [render, falseChars], by decide⟩
    | true => exact ⟨'t', ['r', 'u', 'e'], by simp [render, trueChars], by decide⟩
  | num n =>
    by_cases hn : n < 0
    · exact ⟨'-', natChars n.natAbs, by simp [render, hn], by decide⟩
    · obtain ⟨d, ds, hnat, hd, _⟩ := parseDigits_natChars n.toNat [] trivial
      refine ⟨digitChar d, ds, ?_, ?_⟩
      · simp [render, hn, hnat]
      · apply char_ne_of_toNat_ne
        rw [toNat_digitChar d hd, show (']').toNat = 93 from rfl]
        omega
  | str s => exact ⟨'"', escList s.data ++ ['"'], by simp [render], by decide⟩
  | arr xs =>
    cases xs with
    | nil => exact ⟨'[', [']'], by simp [render], by decide⟩
    | cons x xs =>
      exact ⟨'[', render x ++ renderArrTail xs ++ [']'], by simp [render], by decide⟩
  | obj fs =>
    cases fs with
    | nil => exact ⟨'{', ['}'], by simp [render], by decide⟩
    | cons f fs =>
      obtain ⟨k, v⟩ := f
      exact ⟨'{', renderMember k v ++ renderObjTail fs ++ ['}'], by simp [render], by decide⟩

theorem okAfter_cons (c : Char) (l : List Char) (h : isDigitCh c = false) :
    okAfter (c :: l) := h

/-! ### Round trip of the JSON codec: the master induction -/

mutual

theorem parseVal_render :
    ∀ (fuel : Nat) (v : Json) (rest : List Char), numNodes v ≤ fuel → okAfter rest →
      parseVal fuel (render v ++ rest) = some (v, rest)
  | 0, v, _, hfuel, _ => absurd (le_trans (numNodes_pos v) hfuel) (by omega)
  | fuel + 1, v, rest, hfuel, hrest => by
    cases v with
    | null =>
      simp only [parseVal]
      simp [render, nullChars]
    | bool b =>
      cases b with
      | false => simp only [parseVal]; simp [render, falseChars]
      | true => simp only [parseVal]; simp [render, trueChars]
    | num n =>
      by_cases hn : n < 0
      · obtain ⟨d, ds, hnat, hd, hpd⟩ := parseDigits_natChars n.natAbs rest hrest
        obtain ⟨hn1, hn2, hn3, hn4, hn5, hn6, hn7⟩ :=
          isDigitCh_ne (digitChar d) (isDigitCh_digitChar d hd)
        simp only [parseVal]
        simp only [render, if_pos hn, hnat, List.cons_append, List.append_assoc]
        have habs : ((n.natAbs : Nat) : Int) = -n := Int.ofNat_natAbs_of_nonpos (by omega)
        simp [isDigitCh_digitChar d hd, hpd, habs]
      · obtain ⟨d, ds, hnat, hd, hpd⟩ := parseDigits_natChars n.toNat rest hrest
        obtain ⟨hn1, hn2, hn3, hn4, hn5, hn6, hn7⟩ :=
          isDigitCh_ne (digitChar d) (isDigitCh_digitChar d hd)
        simp only [parseVal]
        simp only [render, if_neg hn, hnat, List.cons_append, List.append_assoc]
        simp [hn1, hn2, hn3, hn4, hn5, isDigitCh_digitChar d hd, hpd]
        omega
    | str s =>
      simp only [parseVal]
      simp [render, parseStrChars_escList s.data rest, mk_data]
    | arr xs =>
      cases xs with
      | nil =>
        simp only [parseVal]
        simp [render, (by decide : isDigitCh '[' = false)]
      | cons x xs =>
        have hfuel' : numNodesList (x :: xs) < fuel := by
          simp only [numNodes] at hfuel
          omega
        obtain ⟨c0, t0, hx, hc0⟩ := render_head x
        have ihq := parseItems_render fuel x xs rest hfuel' hrest
        simp only [parseVal]
        simp only [render, List.cons_append, List.append_assoc]
        rw [hx] at ihq ⊢
        simp [hc0, (by decide : isDigitCh '[' = false)]
        simpa using ihq
    | obj fs =>
      cases fs with
      | nil =>
        simp only [parseVal]
        simp [render, (by decide : isDigitCh '{' = false)]
      | cons f fs =>
        obtain ⟨k, v⟩ := f
        have hfuel' : numNodesObj ((k, v) :: fs) < fuel := by
          simp only [numNodes] at hfuel
          omega
        have ihr := parseMembers_render fuel k v fs rest hfuel' hrest
        simp only [parseVal]
        simp only [render, renderMember, List.cons_append, List.append_assoc] at ihr ⊢
        simp [(by decide : isDigitCh '{' = false)]
        simpa using ihr

theorem parseItems_render :
    ∀ (fuel : Nat) (x : Json) (xs : List Json) (rest : List Char),
      numNodesList (x :: xs) < fuel → okAfter rest →
      parseItems fuel (render x ++ renderArrTail xs ++ (']' :: rest)) = some (x :: xs, rest)
  | 0, x, xs, _, hfuel, _ => absurd hfuel (by omega)
  | fuel + 1, x, xs, rest, hfuel, hrest => by
    have hx : numNodes x ≤ fuel := by
      simp only [numNodesList] at hfuel
      omega
    have hafter : okAfter (renderArrTail xs ++ (']' :: rest)) := by
      cases xs with
      | nil => simpa [renderArrTail] using okAfter_cons ']' rest (by decide)
      | cons y ys =>
        simp only [renderArrTail, List.cons_append]
        exact okAfter_cons ',' _ (by decide)
    have ihv := parseVal_render fuel x (renderArrTail xs ++ (']' :: rest)) hx hafter
    simp only [parseItems]
    rw [show render x ++ renderArrTail xs ++ (']' :: rest)
        = render x ++ (renderArrTail xs ++ (']' :: rest)) by simp]
    rw [ihv]
    cases xs with
    | nil => simp [renderArrTail]
    | cons y ys =>
      have hfuel' : numNodesList (y :: ys) < fuel := by
        simp only [numNodesList] at hfuel ⊢
        have := numNodes_pos x
        omega
      have ihq := parseItems_render fuel y ys rest hfuel' hrest
      simp only [renderArrTail, List.cons_append, List.append_assoc] at ihq ⊢
      simp [ihq]

theorem parseMembers_render :
    ∀ (fuel : Nat) (k : String) (v : Json) (fs : List (String × Json)) (rest : List Char),
      numNodesObj ((k, v) :: fs) < fuel → okAfter rest →
      parseMembers fuel (renderMember k v ++ renderObjTail fs ++ ('}' :: rest))
        = some ((k, v) :: fs, rest)
  | 0, k, v, fs, _, hfuel, _ => absurd hfuel (by omega)
  | fuel + 1, k, v, fs, rest, hfuel, hrest => by
    have hv : numNodes v ≤ fuel := by
      simp only [numNodesObj] at hfuel
      omega
    have hafter : okAfter (renderObjTail fs ++ ('}' :: rest)) := by
      cases fs with
      | nil => simpa [renderObjTail] using okAfter_cons '}' rest (by decide)
      | cons g gs =>
        obtain ⟨k2, v2⟩ := g
        simp only [renderObjTail, List.cons_append]
        exact okAfter_cons ',' _ (by decide)
    have ihv := parseVal_render fuel v (renderObjTail fs ++ ('}' :: rest)) hv hafter
    have hstr := parseStrChars_escList k.data
      (':' :: (render v ++ (renderObjTail fs ++ ('}' :: rest))))
    cases fs with
    | nil =>
      simp only [renderObjTail, List.nil_append] at ihv hstr ⊢
      simp only [parseMembers, renderMember, List.cons_append, List.append_assoc,
        List.nil_append]
      simp [hstr, ihv, mk_data]
    | cons g gs =>
      obtain ⟨k2, v2⟩ := g
      have hfuel2 : numNodesObj ((k2, v2) :: gs) < fuel := by
        simp only [numNodesObj] at hfuel ⊢
        have := numNodes_pos v
        omega
      have ihr := parseMembers_render fuel k2 v2 gs rest hfuel2 hrest
      simp only [renderObjTail, renderMember, List.cons_append, List.append_assoc,
        List.nil_append] at ihv hstr ihr ⊢
      simp only [parseMembers]
      simp [hstr, ihv, mk_data]
      simpa using ihr
end

/-! ### Round trip of the JSON codec: top level -/

mutual

theorem numNodes_le_render : ∀ v : Json, numNodes v ≤ (render v).length
  | .null => by simp [render, numNodes, nullChars]
  | .bool b => by cases b <;> simp [render, numNodes, trueChars, falseChars]
  | .num n => by
    obtain ⟨d, ds, hnat, _, _⟩ := parseDigits_natChars n.natAbs [] trivial
    obtain ⟨d2, ds2, hnat2, _, _⟩ := parseDigits_natChars n.toNat [] trivial
    by_cases hn : n < 0 <;> simp [render, numNodes, hn, hnat, hnat2]
  | .str s => by simp [render, numNodes]
  | .arr xs => by
    cases xs with
    | nil => simp [render, numNodes, numNodesList]
    | cons x xs =>
      have h1 := numNodes_le_render x
      have h2 := numNodesList_le_renderArrTail xs
      simp only [render, numNodes, numNodesList, List.length_cons, List.length_append]
      omega
  | .obj fs => by
    cases fs with
    | nil => simp [render, numNodes, numNodesObj]
    | cons f fs =>
      obtain ⟨k, v⟩ := f
      have h1 := numNodes_le_render v
      have h2 := numNodesObj_le_renderObjTail fs
      simp only [render, renderMember, numNodes, numNodesObj, List.length_cons,
        List.length_append]
      omega

theorem numNodesList_le_renderArrTail : ∀ xs : List Json, numNodesList xs ≤ (renderArrTail xs).length
  | [] => by simp [renderArrTail, numNodesList]
  | x :: xs => by
    have h1 := numNodes_le_render x
    have h2 := numNodesList_le_renderArrTail xs
    simp only [renderArrTail, numNodesList, List.length_cons, List.length_append]
    omega

theorem numNodesObj_le_renderObjTail :
    ∀ fs : List (String × Json), numNodesObj fs ≤ (renderObjTail fs).length
  | [] => by simp [renderObjTail, numNodesObj]
  | (k, v) :: fs => by
    have h1 := numNodes_le_render v
    have h2 := numNodesObj_le_renderObjTail fs
    simp only [renderObjTail, renderMember, numNodesObj, List.length_cons,
      List.length_append]
    omega

end

/-- `JSON.parse` reads back exactly what `JSON.stringify` wrote (over character
lists). -/
theorem jsonParseChars_render (v : Json) : jsonParseChars (render v) = some v := by
  have h := parseVal_render ((render v).length + 1) v []
    (le_trans (numNodes_le_render v) (by omega)) trivial
  rw [List.append_nil] at h
  simp [jsonParseChars, h]

/-- `JSON.parse` reads back exactly what `JSON.stringify` wrote. -/
theorem jsonParse_jsonStringify (v : Json) : jsonParse (jsonStringify v) = some v := by
  simp [jsonParse, jsonStringify, data_mk, jsonParseChars_render]

/-- A stringified value is never the empty string. -/
theorem jsonStringify_ne_empty (v : Json) : jsonStringify v ≠ "" := by
  obtain ⟨c, t, hc, _⟩ := render_head v
  simp only [jsonStringify, hc]
  intro h
  have := congrArg String.data h
  simp [data_mk] at this

/-! ## The LZ-String collaborator and the link token codec (`src/lib/link.ts`) -/

/-- The LZ-String compression library (`compressToEncodedURIComponent` /
`decompressFromEncodedURIComponent`), a black-box collaborator declared but
not defined by the repository (`declare const LZString`).  `decompress`
returns `none` where the library returns `null` (or throws); the packaged
contract is the library's documented round trip on compressor outputs. -/
structure LZCodec where
  compress : String → String
  decompress : String → Option String
  decompress_compress : ∀ s, decompress (compress s) = some s

/-- The identity instance of the compression contract, used to evaluate the
link codec on concrete tokens. -/
def idLZ : LZCodec where
  compress := id
  decompress := some
  decompress_compress := fun _ => rfl

/-- `generateLinkHash` from `src/lib/link.ts`: serialize `{s: sdp, k: key}`
with `JSON.stringify` and compress the payload into the URI-safe token. -/
def generateLinkHash (lz : LZCodec) (sdp : Json) (key : String) : String :=
  lz.compress (jsonStringify (Json.obj [("s", sdp), ("k", Json.str key)]))

/-- `parseLinkHash` from `src/lib/link.ts`: decompress, return `null` on a
falsy result (`null` or the empty string), else `JSON.parse` inside the
`try`/`catch` that turns any parse error into `null`. -/
def parseLinkHash (lz : LZCodec) (hash : String) : Option Json :=
  match lz.decompress hash with
  | none => none
  | some d => if d = "" then none else jsonParse d

/-- Decoding an invite token restores the `{s, k}` payload (helper shared by
the guest-flow theorems). -/
theorem parseLinkHash_generateLinkHash (lz : LZCodec) (d : Json) (k : String) :
    parseLinkHash lz (generateLinkHash lz d k)
      = some (Json.obj [("s", d), ("k", Json.str k)]) := by
  simp [parseLinkHash, generateLinkHash, lz.decompress_compress,
    jsonStringify_ne_empty, jsonParse_jsonStringify]

/-- C1: for every descriptor d and every exported key string k, decoding the
invite token produced from them returns exactly the original pair:
`parseLinkHash (generateLinkHash d k) = some {s: d, k: k}` — the token codec
round-trips the invite payload with no loss. -/
theorem c1_invite_token_roundtrip (lz : LZCodec) (d : Json) (k : String) :
    parseLinkHash lz (generateLinkHash lz d k)
      = some (Json.obj [("s", d), ("k", Json.str k)]) :=
  parseLinkHash_generateLinkHash lz d k

/-- C5: `parseLinkHash` returns the sentinel `none` — never an unhandled
fault — on every input on which any stage of decoding fails: the decompressor
returns no result, the decompressor returns the falsy empty string, or the
decompressed text fails structured parsing.  (Failure of `JSON.parse` is a
thrown `SyntaxError` in the source; the surrounding `try`/`catch` converts it
to `null`, which the embedding models by `jsonParse` returning `none`.) -/
theorem c5_parseLinkHash_malformed_none (lz : LZCodec) (h : String) :
    (lz.decompress h = none → parseLinkHash lz h = none)
    ∧ (lz.decompress h = some "" → parseLinkHash lz h = none)
    ∧ (∀ d, lz.decompress h = some d → jsonParse d = none → parseLinkHash lz h = none) := by
  refine ⟨fun hd => ?_, fun hd => ?_, fun d hd hp => ?_⟩ <;>
    simp [parseLinkHash, hd]
  intro he
  exact hp

/-- Witness for C5: the empty token and a truncated token decode to `none`. -/
theorem c5_witness : parseLinkHash idLZ "" = none ∧ parseLinkHash idLZ "[" = none :=
  ⟨(c5_parseLinkHash_malformed_none idLZ "").2.1 rfl,
   (c5_parseLinkHash_malformed_none idLZ "[").2.2 "[" rfl rfl⟩

/-! ## The WebCrypto collaborators and the cipher layer (security module) -/

/-- The WebCrypto AES-GCM cipher (`crypto.subtle.encrypt` / `decrypt`), a
black-box platform collaborator.  Keys are opaque (`CryptoKey`); `encrypt`
maps key, IV and plaintext bytes to the ciphertext-with-tag bytes, and
`decrypt` inverts it or fails (the `OperationError` thrown when the tag does
not verify).  The packaged contract is the AEAD round trip. -/
structure Aead (Key : Type) where
  encrypt : Key → List Byte → List Byte → List Byte
  decrypt : Key → List Byte → List Byte → Option (List Byte)
  decrypt_encrypt : ∀ k iv m, decrypt k iv (encrypt k iv m) = some m

/-- The `TextEncoder` / `TextDecoder` pair (UTF-8), a black-box platform
collaborator; its contract is the UTF-8 round trip on all text — the empty
string and non-ASCII text included. -/
structure TextCodec where
  encode : String → List Byte
  decode : List Byte → Option String
  decode_encode : ∀ s, decode (encode s) = some s

/-- The `{iv, data}` pair `encryptData` returns. -/
structure EncPayload where
  iv : String
  data : String
deriving DecidableEq

/-- `encryptData` from the security module: UTF-8-encode the text, draw a
12-byte IV from `crypto.getRandomValues` (the draw is the `ivDraw` argument),
AES-GCM-encrypt, and base64 both the IV and the ciphertext. -/
def encryptData {Key : Type} (A : Aead Key) (T : TextCodec) (text : String) (key : Key)
    (ivDraw : List Byte) : Option EncPayload :=
  let encoded := T.encode text
  let encrypted := A.encrypt key ivDraw encoded
  match arrayBufferToBase64 ivDraw, arrayBufferToBase64 encrypted with
  | some ivs, some ds => some ⟨ivs, ds⟩
  | _, _ => none

/-- `decryptData` from the security module: un-base64 the IV and the data,
AES-GCM-decrypt, and UTF-8-decode; `none` models the thrown
`AuthenticationError` / decode failure. -/
def decryptData {Key : Type} (A : Aead Key) (T : TextCodec)
    (encryptedData ivStr : String) (key : Key) : Option String := do
  let iv ← base64ToArrayBuffer ivStr
  let data ← base64ToArrayBuffer encryptedData
  let decrypted ← A.decrypt key iv data
  T.decode decrypted

theorem map_charCodeByte_byteToChar (bs : List Byte) :
    (bs.map byteToChar).map charCodeByte = bs := by
  rw [List.map_map, show charCodeByte ∘ byteToChar = id from funext charCodeByte_byteToChar,
    List.map_id]

/-- Decoding the base64 string the helper produced restores the bytes. -/
theorem base64ToArrayBuffer_mk (bs : List Byte) :
    base64ToArrayBuffer (String.mk (b64EncodeBytes bs)) = some bs := by
  simp [base64ToArrayBuffer, atob, data_mk, b64DecodeBytes_b64EncodeBytes]
  rw [show charCodeByte ∘ byteToChar = id from funext charCodeByte_byteToChar, List.map_id]

/-- `encryptData` always succeeds, emitting the base64 of the drawn IV and of
the AEAD ciphertext. -/
theorem encryptData_eq {Key : Type} (A : Aead Key) (T : TextCodec) (text : String)
    (key : Key) (ivDraw : List Byte) :
    encryptData A T text key ivDraw
      = some ⟨String.mk (b64EncodeBytes ivDraw),
              String.mk (b64EncodeBytes (A.encrypt key ivDraw (T.encode text)))⟩ := by
  simp [encryptData, arrayBufferToBase64_eq]

/-- C2: for every key k and every text payload p — the empty string and
non-ASCII text included — `decryptData` applied to the `(iv, data)` pair
produced by `encryptData p k` with the same key returns exactly p. -/
theorem c2_cipher_roundtrip {Key : Type} (A : Aead Key) (T : TextCodec) (p : String)
    (k : Key) (iv : List Byte) (e : EncPayload)
    (henc : encryptData A T p k iv = some e) :
    decryptData A T e.data e.iv k = some p := by
  rw [encryptData_eq] at henc
  obtain rfl := (Option.some.injEq _ _).mp henc
  simp [decryptData, base64ToArrayBuffer_mk, A.decrypt_encrypt, T.decode_encode]

/-! Concrete collaborator instances used to evaluate the cipher layer. -/

/-- A fixed-width three-bytes-per-character text codec: a concrete inhabitant
of the `TextCodec` contract covering all of Unicode. -/
def chars3Bytes (c : Char) : List Byte :=
  [⟨c.toNat / 65536 % 256, by omega⟩, ⟨c.toNat / 256 % 256, by omega⟩,
   ⟨c.toNat % 256, by omega⟩]

def encode3 : List Char → List Byte
  | [] => []
  | c :: cs => chars3Bytes c ++ encode3 cs

def bytes3Decode : List Byte → Option (List Char)
  | [] => some []
  | a :: b :: c :: rest =>
    (bytes3Decode rest).map (fun cs => Char.ofNat (a.val * 65536 + b.val * 256 + c.val) :: cs)
  | _ => none

theorem bytes3Decode_encode3 :
    ∀ cs : List Char, bytes3Decode (encode3 cs) = some cs
  | [] => rfl
  | c :: cs => by
    have hlt : c.toNat < 1114112 := by
      have hval := c.valid
      simp only [UInt32.isValidChar, Nat.isValidChar, Char.toNat] at hval ⊢
      omega
    have hv : c.toNat / 65536 % 256 * 65536 + c.toNat / 256 % 256 * 256 + c.toNat % 256
        = c.toNat := by omega
    simp [encode3, chars3Bytes, bytes3Decode, bytes3Decode_encode3 cs, hv,
      Char.ofNat_toNat]

def wideCodec : TextCodec where
  encode s := encode3 s.data
  decode bs := (bytes3Decode bs).map (fun cs => String.mk cs)
  decode_encode s := by simp [bytes3Decode_encode3, mk_data]

/-- An AEAD instance that prefixes the IV: a concrete inhabitant of the
`Aead` contract whose ciphertexts separate distinct IVs. -/
def ivPrefixAead : Aead Unit where
  encrypt _ iv m := iv ++ m
  decrypt _ iv c := some (c.drop iv.length)
  decrypt_encrypt k iv m := by simp

/-- A twelve-byte IV draw and a second, distinct draw. -/
def ivDrawA : List Byte := List.replicate 12 0

def ivDrawB : List Byte := List.replicate 11 0 ++ [1]

/-- Witness for C2: a non-ASCII payload survives the encrypt/decrypt round
trip under concrete collaborator instances. -/
theorem c2_witness :
    decryptData ivPrefixAead wideCodec
      (String.mk (b64EncodeBytes (ivPrefixAead.encrypt () ivDrawA (wideCodec.encode "héllo"))))
      (String.mk (b64EncodeBytes ivDrawA)) () = some "héllo" :=
  c2_cipher_roundtrip ivPrefixAead wideCodec "héllo" () ivDrawA _
    (encryptData_eq ivPrefixAead wideCodec "héllo" () ivDrawA)

theorem b64EncodeBytes_injective (b1 b2 : List Byte)
    (h : b64EncodeBytes b1 = b64EncodeBytes b2) : b1 = b2 := by
  have h1 := b64DecodeBytes_b64EncodeBytes b1
  have h2 := b64DecodeBytes_b64EncodeBytes b2
  rw [h, h2] at h1
  exact ((Option.some.injEq _ _).mp h1).symm

theorem mk_injective (c1 c2 : List Char) (h : String.mk c1 = String.mk c2) : c1 = c2 := by
  have := congrArg String.data h
  simpa [data_mk] using this

/-- C8: every call to `encryptData` draws a fresh 12-byte nonce from the
random source; two successive calls with identical key and plaintext, modelled
with distinct random draws, emit different nonce fields and — since AES-GCM
gives distinct ciphertexts under distinct 96-bit IVs (AES is a permutation,
so distinct counter blocks give distinct keystreams and tags), stated here as
the hypothesis on the black-box cipher — different data fields. -/
theorem c8_fresh_nonce_distinct {Key : Type} (A : Aead Key) (T : TextCodec) (k : Key)
    (p : String) (iv1 iv2 : List Byte) (hl1 : iv1.length = 12) (hl2 : iv2.length = 12)
    (hne : iv1 ≠ iv2)
    (hcipher : A.encrypt k iv1 (T.encode p) ≠ A.encrypt k iv2 (T.encode p)) :
    ∃ e1 e2, encryptData A T p k iv1 = some e1 ∧ encryptData A T p k iv2 = some e2 ∧
      e1.iv ≠ e2.iv ∧ e1.data ≠ e2.data := by
  refine ⟨_, _, encryptData_eq A T p k iv1, encryptData_eq A T p k iv2, ?_, ?_⟩
  · intro h
    exact hne (b64EncodeBytes_injective _ _ (mk_injective _ _ h))
  · intro h
    exact hcipher (b64EncodeBytes_injective _ _ (mk_injective _ _ h))

/-- Witness for C8: two concrete distinct 12-byte draws give different nonce
and ciphertext fields. -/
theorem c8_witness :
    ∃ e1 e2, encryptData ivPrefixAead wideCodec "a" () ivDrawA = some e1 ∧
      encryptData ivPrefixAead wideCodec "a" () ivDrawB = some e2 ∧
      e1.iv ≠ e2.iv ∧ e1.data ≠ e2.data :=
  c8_fresh_nonce_distinct ivPrefixAead wideCodec () "a" ivDrawA ivDrawB
    (by decide) (by decide) (by decide) (by decide)

/-! ## JSON truthiness and property access (for the coordinator's checks) -/

/-- JavaScript truthiness of a JSON value (`NaN` cannot arise here: the
payloads carry no fractional numbers). -/
def Json.truthy : Json → Bool
  | .null => false
  | .bool b => b
  | .num n => decide (n ≠ 0)
  | .str s => decide (s ≠ "")
  | .arr _ => true
  | .obj _ => true

/-- JavaScript property access `v[name]`: the field of an object, `undefined`
(modelled as `null`, equally falsy) otherwise. -/
def Json.getField : Json → String → Json
  | .obj fs, name =>
    match fs.find? (fun p => p.1 == name) with
    | some p => p.2
    | none => .null
  | _, _ => .null

/-! ## The handshake coordinator (the `App` component) -/

/-- The coordinator's `State` enum. -/
inductive SessState where
  | INIT
  | HOST_GENERATING
  | HOST_WAITING
  | GUEST_PROCESSING
  | GUEST_ANSWER_READY
  | CONNECTED
deriving DecidableEq

inductive Sender where
  | me
  | peer
deriving DecidableEq

/-- A chat message as kept in the `messages` list. -/
structure Message where
  id : String
  text : String
  sender : Sender
  timestamp : Nat

/-- The React state the coordinator owns: the session state, the shared key,
the conversation, the two connection-data strings, and whether the
`RTCPeerConnection` / `RTCDataChannel` refs are populated. -/
structure AppState (Key : Type) where
  state : SessState
  sharedKey : Option Key
  messages : List Message
  offerLink : String
  answerData : String
  pcSet : Bool
  dcSet : Bool

/-- The state at component mount. -/
def initialAppState (Key : Type) : AppState Key :=
  ⟨.INIT, none, [], "", "", false, false⟩

/-- The collaborators `handleGuestLoad` calls out to: `Security.importKey` on
the token's key field (may fail with `KeyImportError`), the transport's
acceptance of the remote descriptor (`setRemoteDescription`, which may
reject), and the local answer descriptor the transport produces after
`createAnswer` / `setLocalDescription` / ICE gathering. -/
structure GuestEnv (Key : Type) where
  importKey : Json → Option Key
  acceptRemote : Json → Bool
  localDesc : Json

/-- `handleGuestLoad` from the `App` component: set `GUEST_PROCESSING`, decode
the token, check `data`, `data.s` and `data.k` for truthiness, import the
key (storing it in `sharedKey`), create the peer (populating the ref), hand
the remote descriptor to the transport, and on success expose
`btoa(JSON.stringify(pc.localDescription))` as the answer and move to
`GUEST_ANSWER_READY`; every failure is caught, alerts, and returns the state
machine to `INIT`. -/
def handleGuestLoad {Key : Type} (env : GuestEnv Key) (lz : LZCodec) (st : AppState Key)
    (hash : String) : AppState Key :=
  let st1 := { st with state := SessState.GUEST_PROCESSING }
  match parseLinkHash lz hash with
  | none => { st1 with state := SessState.INIT }
  | some data =>
    if ¬(data.truthy ∧ (data.getField "s").truthy ∧ (data.getField "k").truthy) then
      { st1 with state := SessState.INIT }
    else
      match env.importKey (data.getField "k") with
      | none => { st1 with state := SessState.INIT }
      | some key =>
        let st2 := { st1 with sharedKey := some key, pcSet := true }
        if ¬ env.acceptRemote (data.getField "s") then { st2 with state := SessState.INIT }
        else
          match btoa (jsonStringify env.localDesc) with
          | none => { st2 with state := SessState.INIT }
          | some answer =>
            { st2 with answerData := answer, state := SessState.GUEST_ANSWER_READY }

/-- C6 as stated is false on the code: a concrete run in which the token
decodes, the key imports, and the transport then rejects the remote
descriptor ends in `INIT` (the user-visible failure return) with the
session key still populated — partial session state is retained. -/
def guestEnvReject : GuestEnv Nat where
  importKey _ := some 0
  acceptRemote _ := false
  localDesc := Json.null

def inviteTok : String := generateLinkHash idLZ (Json.str "sdp-offer") "KEY"

/-- The transport-rejection path of `handleGuestLoad`, in full: back to
`INIT`, with the imported key and the peer handle retained (helper shared by
the guest-failure theorems). -/
theorem handleGuestLoad_reject {Key : Type} (env : GuestEnv Key) (lz : LZCodec)
    (hash : String) (data : Json) (key : Key)
    (hp : parseLinkHash lz hash = some data)
    (hfields : data.truthy ∧ (data.getField "s").truthy ∧ (data.getField "k").truthy)
    (himp : env.importKey (data.getField "k") = some key)
    (hrej : env.acceptRemote (data.getField "s") = false) :
    handleGuestLoad env lz (initialAppState Key) hash
      = { initialAppState Key with
            state := SessState.INIT, sharedKey := some key, pcSet := true } := by
  simp [handleGuestLoad, hp, hfields, himp, hrej, initialAppState]

/-- Counterexample to C6: the coordinator is back in `Init` after the failed
guest load, yet the session key field is populated. -/
theorem c6_counterexample :
    (handleGuestLoad guestEnvReject idLZ (initialAppState Nat) inviteTok).state
        = SessState.INIT
    ∧ (handleGuestLoad guestEnvReject idLZ (initialAppState Nat) inviteTok).sharedKey
        = some 0
    ∧ (handleGuestLoad guestEnvReject idLZ (initialAppState Nat) inviteTok).pcSet = true := by
  rw [handleGuestLoad_reject guestEnvReject idLZ inviteTok
    (Json.obj [("s", Json.str "sdp-offer"), ("k", Json.str "KEY")]) 0
    (parseLinkHash_generateLinkHash idLZ (Json.str "sdp-offer") "KEY")
    (by decide) rfl rfl]
  exact ⟨rfl, rfl, rfl⟩

/-- C6 amended: for the decode failures the claim lists (no result from the
decoder, missing or falsy descriptor or key) and for key-import failure the
coordinator returns to `Init` with no session fields populated; on transport
rejection of the remote descriptor it also returns to `Init` with an error,
but the already-imported session key (and the created peer handle) remain
populated.  In no failure case is a channel set. -/
theorem c6_guest_failure_states {Key : Type} (env : GuestEnv Key) (lz : LZCodec)
    (hash : String) :
    ((parseLinkHash lz hash = none
        ∨ (∃ data, parseLinkHash lz hash = some data
            ∧ ¬(data.truthy ∧ (data.getField "s").truthy ∧ (data.getField "k").truthy)))
      → handleGuestLoad env lz (initialAppState Key) hash
          = { initialAppState Key with state := SessState.INIT })
    ∧ (∀ data, parseLinkHash lz hash = some data
        → (data.truthy ∧ (data.getField "s").truthy ∧ (data.getField "k").truthy)
        → env.importKey (data.getField "k") = none
        → handleGuestLoad env lz (initialAppState Key) hash
            = { initialAppState Key with state := SessState.INIT })
    ∧ (∀ data key, parseLinkHash lz hash = some data
        → (data.truthy ∧ (data.getField "s").truthy ∧ (data.getField "k").truthy)
        → env.importKey (data.getField "k") = some key
        → env.acceptRemote (data.getField "s") = false
        → (handleGuestLoad env lz (initialAppState Key) hash).state = SessState.INIT
          ∧ (handleGuestLoad env lz (initialAppState Key) hash).sharedKey = some key
          ∧ (handleGuestLoad env lz (initialAppState Key) hash).dcSet = false) := by
  refine ⟨?_, ?_, ?_⟩
  · rintro (hp | ⟨data, hp, hfields⟩)
    · simp [handleGuestLoad, hp, initialAppState]
    · simp [handleGuestLoad, hp, hfields, initialAppState]
  · intro data hp hfields himp
    simp [handleGuestLoad, hp, hfields, himp, initialAppState]
  · intro data key hp hfields himp hrej
    simp [handleGuestLoad, hp, hfields, himp, hrej, initialAppState]

/-- Witness for the amended C6: a syntactically invalid (empty) token returns
the coordinator to `Init` with no session fields populated. -/
theorem c6_witness :
    handleGuestLoad guestEnvReject idLZ (initialAppState Nat) ""
      = { initialAppState Nat with state := SessState.INIT } :=
  (c6_guest_failure_states guestEnvReject idLZ "").1 (Or.inl rfl)

/-! ## C3: the shape of the Guest's ResponseToken -/

theorem binaryCodes_of_latin1 :
    ∀ cs : List Char, (∀ c ∈ cs, c.toNat < 256) →
      binaryCodes cs = some (cs.map charCodeByte)
  | [], _ => rfl
  | c :: cs, h => by
    have hc : c.toNat < 256 := h c (by simp)
    have ih := binaryCodes_of_latin1 cs (fun x hx => h x (by simp [hx]))
    simp [binaryCodes, charToByte, hc, ih, charCodeByte, Nat.mod_eq_of_lt hc]

/-- On latin1 text, `btoa` succeeds with the base64 of the code points. -/
theorem btoa_of_latin1 (s : String) (h : ∀ c ∈ s.data, c.toNat < 256) :
    btoa s = some (String.mk (b64EncodeBytes (s.data.map charCodeByte))) := by
  simp [btoa, binaryCodes_of_latin1 s.data h]

theorem byteToChar_charCodeByte (c : Char) (h : c.toNat < 256) :
    byteToChar (charCodeByte c) = c := by
  simp only [byteToChar, charCodeByte, Nat.mod_eq_of_lt h]
  exact Char.ofNat_toNat c

/-- `atob` inverts `btoa` on latin1 text. -/
theorem atob_btoa_of_latin1 (s : String) (h : ∀ c ∈ s.data, c.toNat < 256) :
    atob (String.mk (b64EncodeBytes (s.data.map charCodeByte))) = some s := by
  simp [atob, data_mk, b64DecodeBytes_b64EncodeBytes, List.map_map]
  rw [show byteToChar ∘ charCodeByte = fun c => byteToChar (charCodeByte c) from rfl]
  rw [List.map_congr_left (fun c hc => byteToChar_charCodeByte c (h c hc))]
  simp [List.map_id, mk_data]

/-- C3: on the Guest success path, the ResponseToken the coordinator exposes
is the plain base64 encoding (`btoa`) of the serialized descriptor only —
there is no compression stage, unlike the InviteToken pipeline — and decoding
it back with plain `atob` followed by `JSON.parse` yields exactly the local
descriptor and nothing else, so it carries no key field: the token is a
function of the transport's local descriptor alone, and the session key
(which enters the flow only through `importKey`) never appears in it. -/
theorem c3_response_token_plain_base64 {Key : Type} (env : GuestEnv Key) (lz : LZCodec)
    (hash : String) (data : Json) (key : Key)
    (hp : parseLinkHash lz hash = some data)
    (hfields : data.truthy ∧ (data.getField "s").truthy ∧ (data.getField "k").truthy)
    (himp : env.importKey (data.getField "k") = some key)
    (hacc : env.acceptRemote (data.getField "s") = true)
    (hlatin : ∀ c ∈ (jsonStringify env.localDesc).data, c.toNat < 256) :
    (handleGuestLoad env lz (initialAppState Key) hash).state = SessState.GUEST_ANSWER_READY
    ∧ (handleGuestLoad env lz (initialAppState Key) hash).answerData
        = String.mk (b64EncodeBytes ((jsonStringify env.localDesc).data.map charCodeByte))
    ∧ (atob ((handleGuestLoad env lz (initialAppState Key) hash).answerData)).bind jsonParse
        = some env.localDesc := by
  have hbtoa := btoa_of_latin1 (jsonStringify env.localDesc) hlatin
  have hback := atob_btoa_of_latin1 (jsonStringify env.localDesc) hlatin
  have hfinal : handleGuestLoad env lz (initialAppState Key) hash
      = { initialAppState Key with
            sharedKey := some key, pcSet := true,
            answerData :=
              String.mk (b64EncodeBytes ((jsonStringify env.localDesc).data.map charCodeByte)),
            state := SessState.GUEST_ANSWER_READY } := by
    simp [handleGuestLoad, hp, hfields, himp, hacc, hbtoa, initialAppState]
  rw [hfinal]
  refine ⟨rfl, rfl, ?_⟩
  simp [hback, jsonParse_jsonStringify]

/-- A successful guest environment used to evaluate the response-token path. -/
def guestEnvOk : GuestEnv Nat where
  importKey _ := some 0
  acceptRemote _ := true
  localDesc := Json.str "answer-sdp"

/-- Witness for C3: with a concrete invite token and local answer descriptor,
the guest reaches `GUEST_ANSWER_READY` and its ResponseToken decodes (plain
base64, no decompression) to exactly the descriptor. -/
theorem c3_witness :
    (handleGuestLoad guestEnvOk idLZ (initialAppState Nat) inviteTok).state
        = SessState.GUEST_ANSWER_READY
    ∧ (handleGuestLoad guestEnvOk idLZ (initialAppState Nat) inviteTok).answerData
        = String.mk (b64EncodeBytes
            ((jsonStringify (Json.str "answer-sdp")).data.map charCodeByte))
    ∧ (atob ((handleGuestLoad guestEnvOk idLZ (initialAppState Nat) inviteTok).answerData)).bind
        jsonParse = some (Json.str "answer-sdp") :=
  c3_response_token_plain_base64 guestEnvOk idLZ inviteTok
    (Json.obj [("s", Json.str "sdp-offer"), ("k", Json.str "KEY")]) 0
    (parseLinkHash_generateLinkHash idLZ (Json.str "sdp-offer") "KEY")
    (by decide) rfl rfl
    (by
      intro c hc
      have hdata : (jsonStringify guestEnvOk.localDesc).data
          = ['"', 'a', 'n', 's', 'w', 'e', 'r', '-', 's', 'd', 'p', '"'] := by
        simp [guestEnvOk, jsonStringify, render, escList, escChar, data_mk]
      rw [hdata] at hc
      fin_cases hc <;> decide)

/-! ## C4: the Host's pasted-response decode chain -/

/-- What `handleHostProcessAnswer` does with the pasted text: nothing on
blank input, else select a remote descriptor and hand it to the transport,
or alert.  `errorAlert` is the outer catch (`"Error connecting"`),
`invalidAlert` the `"Invalid Answer Code"` path. -/
inductive HostOutcome where
  | noop
  | setRemote (sdp : Json)
  | invalidAlert
  | errorAlert

/-- Leading-whitespace removal over characters (ASCII whitespace). -/
def dropWhitespace : List Char → List Char
  | [] => []
  | c :: cs =>
    if c.toNat = 32 ∨ (9 ≤ c.toNat ∧ c.toNat ≤ 13) then dropWhitespace cs else c :: cs

/-- The JavaScript `String.prototype.trim` platform method: strip whitespace
from both ends. -/
def jsTrim (s : String) : String :=
  String.mk ((dropWhitespace (dropWhitespace s.data).reverse).reverse)

/-- `handleHostProcessAnswer` from the `App` component, translated branch by
branch: (a) try `parseLinkHash` and take `payload.s` when `payload` and
`payload.s` are truthy; (b) if still unset, try `JSON.parse(atob(input))`
with failures swallowed; (c) if still falsy and the input starts with `{`,
run `JSON.parse(input)` bare — a throw here reaches the outer catch; finally
hand a truthy result to the transport if the peer exists, else alert. -/
def handleHostProcessAnswer (lz : LZCodec) (input : String) (pcPresent : Bool) :
    HostOutcome :=
  if jsTrim input = "" then .noop
  else
    let a : Json :=
      match parseLinkHash lz input with
      | some payload =>
        if payload.truthy ∧ (payload.getField "s").truthy then payload.getField "s"
        else .null
      | none => .null
    let b : Json :=
      if a.truthy then a
      else
        match atob input with
        | some bin =>
          match jsonParse bin with
          | some v => v
          | none => .null
        | none => .null
    if ¬ b.truthy ∧ input.startsWith "\x7b" then
      match jsonParse input with
      | none => .errorAlert
      | some v => if v.truthy ∧ pcPresent then .setRemote v else .invalidAlert
    else if b.truthy ∧ pcPresent then .setRemote b else .invalidAlert

/-- Branch (a) of the documented fallback chain: compressed-token decode,
valid when it yields a payload with a truthy descriptor field (from the
spec's decode-chain description). -/
def branchA (lz : LZCodec) (input : String) : Option Json :=
  match parseLinkHash lz input with
  | some payload =>
    if payload.truthy ∧ (payload.getField "s").truthy then some (payload.getField "s")
    else none
  | none => none

/-- Branch (b): plain base64, then structured decode (from the spec's
decode-chain description). -/
def branchB (input : String) : Option Json :=
  match atob input with
  | some bin =>
    match jsonParse bin with
    | some v => if v.truthy then some v else none
    | none => none
  | none => none

/-- Branch (c): raw structured-text decode with no wrapping (from the spec's
decode-chain description). -/
def branchC (input : String) : Option Json :=
  if input.startsWith "\x7b" then
    match jsonParse input with
    | some v => if v.truthy then some v else none
    | none => none
  else none

/-- The spec's fixed-order chain: the first branch yielding a structurally
valid, truthy descriptor wins. -/
def firstValidBranch (lz : LZCodec) (input : String) : Option Json :=
  match branchA lz input with
  | some v => some v
  | none =>
    match branchB input with
    | some v => some v
    | none => branchC input

theorem truthy_null : Json.truthy Json.null = false := rfl

/-- C4: with a non-blank paste and the peer connection present, the Host's
decoder realises exactly the fixed-order chain (a) compressed-token decode,
(b) plain base64-then-structured decode, (c) raw structured-text decode: the
first branch yielding a structurally valid result with a non-empty (truthy)
descriptor wins and is handed to the transport, earlier branches' failures
being discarded silently; when no branch wins the handler only alerts. -/
theorem c4_host_decode_chain (lz : LZCodec) (input : String) (hne : ¬ jsTrim input = "") :
    (∀ sdp, firstValidBranch lz input = some sdp →
        handleHostProcessAnswer lz input true = HostOutcome.setRemote sdp)
    ∧ (firstValidBranch lz input = none →
        handleHostProcessAnswer lz input true = HostOutcome.invalidAlert
        ∨ handleHostProcessAnswer lz input true = HostOutcome.errorAlert) := by
  unfold handleHostProcessAnswer firstValidBranch branchA branchB branchC
  rw [if_neg hne]
  cases hp : parseLinkHash lz input with
  | some payload =>
    by_cases hpf : payload.truthy ∧ (payload.getField "s").truthy
    · simp [hp, hpf, hpf.2]
    · cases hb : atob input with
      | some bin =>
        cases hj : jsonParse bin with
        | some v =>
          by_cases hv : v.truthy
          · simp [hp, hpf, hb, hj, hv, truthy_null]
          · by_cases hbr : input.startsWith "\x7b"
            · cases hji : jsonParse input with
              | some w =>
                by_cases hw : w.truthy
                · simp [hp, hpf, hb, hj, hv, hbr, hji, hw, truthy_null]
                · simp [hp, hpf, hb, hj, hv, hbr, hji, hw, truthy_null]
              | none => simp [hp, hpf, hb, hj, hv, hbr, hji, truthy_null]
            · simp [hp, hpf, hb, hj, hv, hbr, truthy_null]
        | none =>
          by_cases hbr : input.startsWith "\x7b"
          · cases hji : jsonParse input with
            | some w =>
              by_cases hw : w.truthy
              · simp [hp, hpf, hb, hj, hbr, hji, hw, truthy_null]
              · simp [hp, hpf, hb, hj, hbr, hji, hw, truthy_null]
            | none => simp [hp, hpf, hb, hj, hbr, hji, truthy_null]
          · simp [hp, hpf, hb, hj, hbr, truthy_null]
      | none =>
        by_cases hbr : input.startsWith "\x7b"
        · cases hji : jsonParse input with
          | some w =>
            by_cases hw : w.truthy
            · simp [hp, hpf, hb, hbr, hji, hw, truthy_null]
            · simp [hp, hpf, hb, hbr, hji, hw, truthy_null]
          | none => simp [hp, hpf, hb, hbr, hji, truthy_null]
        · simp [hp, hpf, hb, hbr, truthy_null]
  | none =>
    cases hb : atob input with
    | some bin =>
      cases hj : jsonParse bin with
      | some v =>
        by_cases hv : v.truthy
        · simp [hp, hb, hj, hv, truthy_null]
        · by_cases hbr : input.startsWith "\x7b"
          · cases hji : jsonParse input with
            | some w =>
              by_cases hw : w.truthy
              · simp [hp, hb, hj, hv, hbr, hji, hw, truthy_null]
              · simp [hp, hb, hj, hv, hbr, hji, hw, truthy_null]
            | none => simp [hp, hb, hj, hv, hbr, hji, truthy_null]
          · simp [hp, hb, hj, hv, hbr, truthy_null]
      | none =>
        by_cases hbr : input.startsWith "\x7b"
        · cases hji : jsonParse input with
          | some w =>
            by_cases hw : w.truthy
            · simp [hp, hb, hj, hbr, hji, hw, truthy_null]
            · simp [hp, hb, hj, hbr, hji, hw, truthy_null]
          | none => simp [hp, hb, hj, hbr, hji, truthy_null]
        · simp [hp, hb, hj, hbr, truthy_null]
    | none =>
      by_cases hbr : input.startsWith "\x7b"
      · cases hji : jsonParse input with
        | some w =>
          by_cases hw : w.truthy
          · simp [hp, hb, hbr, hji, hw, truthy_null]
          · simp [hp, hb, hbr, hji, hw, truthy_null]
        | none => simp [hp, hb, hbr, hji, truthy_null]
      · simp [hp, hb, hbr, truthy_null]

/-! ## C7: the data-channel message handler installed by `setupDataChannel` -/

/-- The `dc.onmessage` handler from `setupDataChannel`: parse the JSON
payload; when it carries truthy `iv` and `data` fields and a session key is
present, decrypt (`Security.decryptData(payload.data, payload.iv, key)`) and
append the plaintext to the conversation; any thrown failure — malformed
JSON, or decryption/decoding failure inside `decryptData` — is caught and
only logged.  Non-string `iv`/`data` fields make the decryption call fail
(their coercions are not valid base64), modelled by the catch-all branch. -/
def dcOnMessage {Key : Type} (A : Aead Key) (T : TextCodec) (st : AppState Key)
    (raw : String) (msgId : String) (now : Nat) : AppState Key :=
  match jsonParse raw with
  | none => st
  | some payload =>
    if (payload.getField "iv").truthy ∧ (payload.getField "data").truthy
        ∧ st.sharedKey.isSome then
      match st.sharedKey with
      | some key =>
        match payload.getField "data", payload.getField "iv" with
        | Json.str dataStr, Json.str ivStr =>
          match decryptData A T dataStr ivStr key with
          | none => st
          | some text =>
            { st with messages := st.messages ++ [⟨msgId, text, Sender.peer, now⟩] }
        | _, _ => st
      | none => st
    else st

/-- C7: in the `Connected` state, a received message whose decryption fails
authentication or decodes to invalid payload is dropped: nothing is appended
to the conversation, every session field is untouched, and the state remains
`Connected` — the session is not terminated. -/
theorem c7_bad_message_dropped {Key : Type} (A : Aead Key) (T : TextCodec)
    (st : AppState Key) (raw msgId : String) (now : Nat)
    (hconn : st.state = SessState.CONNECTED)
    (hfail : jsonParse raw = none
      ∨ (∀ payload dataStr ivStr key, jsonParse raw = some payload →
          payload.getField "data" = Json.str dataStr →
          payload.getField "iv" = Json.str ivStr →
          st.sharedKey = some key →
          decryptData A T dataStr ivStr key = none)) :
    dcOnMessage A T st raw msgId now = st
    ∧ (dcOnMessage A T st raw msgId now).state = SessState.CONNECTED
    ∧ (dcOnMessage A T st raw msgId now).messages = st.messages := by
  have heq : dcOnMessage A T st raw msgId now = st := by
    rcases hfail with hj | hdec
    · simp [dcOnMessage, hj]
    · unfold dcOnMessage
      cases hj : jsonParse raw with
      | none => rfl
      | some payload =>
        by_cases hcond : (payload.getField "iv").truthy ∧ (payload.getField "data").truthy
            ∧ st.sharedKey.isSome
        · simp only [hcond, if_pos, ite_true]
          cases hk : st.sharedKey with
          | none => rfl
          | some key =>
            cases hdata : payload.getField "data" with
            | str dataStr =>
              cases hiv : payload.getField "iv" with
              | str ivStr =>
                simp [hdec payload dataStr ivStr key hj hdata hiv hk]
              | null => rfl
              | bool b => rfl
              | num n => rfl
              | arr xs => rfl
              | obj fs => rfl
            | null => rfl
            | bool b => rfl
            | num n => rfl
            | arr xs => rfl
            | obj fs => rfl
        · simp [hcond]
  exact ⟨heq, by rw [heq, hconn], by rw [heq]⟩

/-- A connected session used to evaluate the message handler. -/
def connectedState : AppState Unit :=
  ⟨SessState.CONNECTED, some (), [], "", "", true, true⟩

/-- Witness for C7: a malformed ciphertext message leaves the connected
session exactly as it was. -/
theorem c7_witness :
    dcOnMessage ivPrefixAead wideCodec connectedState "[" "m1" 0 = connectedState
    ∧ (dcOnMessage ivPrefixAead wideCodec connectedState "[" "m1" 0).state
        = SessState.CONNECTED
    ∧ (dcOnMessage ivPrefixAead wideCodec connectedState "[" "m1" 0).messages
        = connectedState.messages :=
  c7_bad_message_dropped ivPrefixAead wideCodec connectedState "[" "m1" 0 rfl (Or.inl rfl)

/-- Witness for C4: a pasted plain-base64 response (branch b) wins after the
compressed-token branch fails, and is handed to the transport. -/
theorem c4_witness :
    handleHostProcessAnswer idLZ "WzEsMl0=" true
      = HostOutcome.setRemote (Json.arr [Json.num 1, Json.num 2]) :=
  (c4_host_decode_chain idLZ "WzEsMl0=" (by decide)).1
    (Json.arr [Json.num 1, Json.num 2]) (by rfl)

/-! ## C9: the gathering suspension (`waitForIce`) and token emission order -/

/-- The transport's ICE gathering state. -/
inductive GatherState where
  | new
  | gathering
  | complete
deriving DecidableEq

/-- The listener loop of `waitForIce`: at each `icegatheringstatechange`
event the current state is checked; the promise resolves — removing the
listener — at the first observation of `complete`.  The result is the number
of events consumed before resumption; `none` means the promise never
resolves. -/
def waitForIceLoop : List GatherState → Option Nat
  | [] => none
  | s :: rest =>
    if s = GatherState.complete then some 0 else (waitForIceLoop rest).map (· + 1)

/-- `waitForIce` from the `App` component: resolve immediately when
`iceGatheringState` is already `complete`, else register the listener and
resolve at the first completion event. -/
def waitForIce (g0 : GatherState) (events : List GatherState) : Option Nat :=
  if g0 = GatherState.complete then some 0
  else (waitForIceLoop events).map (· + 1)

theorem waitForIceLoop_spec :
    ∀ (es : List GatherState) (i : Nat), waitForIceLoop es = some i →
      es.get? i = some GatherState.complete
      ∧ ∀ j, j < i → es.get? j ≠ some GatherState.complete
  | [], i, h => by simp [waitForIceLoop] at h
  | s :: es, i, h => by
    by_cases hs : s = GatherState.complete
    · simp [waitForIceLoop, hs] at h
      subst h
      subst hs
      exact ⟨rfl, fun j hj => absurd hj (by omega)⟩
    · simp [waitForIceLoop, hs] at h
      obtain ⟨m, hm, rfl⟩ := h
      obtain ⟨h1, h2⟩ := waitForIceLoop_spec es m hm
      refine ⟨by simpa using h1, ?_⟩
      intro j hj
      cases j with
      | zero => simpa using hs
      | succ j => simpa using h2 j (by omega)

theorem waitForIceLoop_none :
    ∀ es : List GatherState, waitForIceLoop es = none →
      ∀ e ∈ es, e ≠ GatherState.complete
  | [], _, e, he => by simp at he
  | s :: es, h, e, he => by
    by_cases hs : s = GatherState.complete
    · simp [waitForIceLoop, hs] at h
    · simp [waitForIceLoop, hs] at h
      rcases List.mem_cons.mp he with rfl | hmem
      · exact hs
      · exact waitForIceLoop_none es h e hmem

/-- Events of a coordinator flow, in occurrence order. -/
inductive TraceEv where
  | stateSet (s : SessState)
  | keyGenerated
  | offerCreated
  | iceObserved (g : GatherState)
  | resumed
  | tokenEmitted (tok : String)

/-- ICE events observed before (and including) the resuming one; all of them
when the suspension never resumes. -/
def observedIce (g0 : GatherState) (ices : List GatherState) : List TraceEv :=
  match waitForIce g0 ices with
  | some 0 => []
  | some (n + 1) => (ices.take (n + 1)).map TraceEv.iceObserved
  | none => ices.map TraceEv.iceObserved

/-- The environment of one `startHost` run: the exported key string, the
local offer descriptor, the initial gathering state and the event schedule,
and the page origin/path for the link. -/
structure HostEnv where
  rawKey : String
  localDesc : Json
  g0 : GatherState
  ices : List GatherState
  origin : String
  pathname : String

/-- The event trace of `startHost`: set `HOST_GENERATING`, generate the key,
create the offer, suspend on `waitForIce`, and only after it resumes build
the invite link (`origin + path + "#" + generateLinkHash(...)`), expose it
and move to `HOST_WAITING`.  If gathering never completes the run stays
suspended and nothing after the wait happens. -/
def startHostTrace (lz : LZCodec) (env : HostEnv) : List TraceEv :=
  [TraceEv.stateSet SessState.HOST_GENERATING, TraceEv.keyGenerated, TraceEv.offerCreated]
  ++ observedIce env.g0 env.ices
  ++ match waitForIce env.g0 env.ices with
     | none => []
     | some _ =>
       [TraceEv.resumed,
        TraceEv.tokenEmitted (env.origin ++ env.pathname ++ "#"
          ++ generateLinkHash lz env.localDesc env.rawKey),
        TraceEv.stateSet SessState.HOST_WAITING]

/-- The environment of one guest `handleGuestLoad` run, with the gathering
schedule of the answerer side. -/
structure GuestFlowEnv (Key : Type) where
  env : GuestEnv Key
  g0 : GatherState
  ices : List GatherState

/-- The event trace of `handleGuestLoad`: set `GUEST_PROCESSING`; on any
early failure return to `INIT`; otherwise suspend on `waitForIce` and only
after it resumes build `btoa(JSON.stringify(localDescription))`, expose it
and move to `GUEST_ANSWER_READY`. -/
def guestLoadTrace {Key : Type} (lz : LZCodec) (fe : GuestFlowEnv Key) (hash : String) :
    List TraceEv :=
  TraceEv.stateSet SessState.GUEST_PROCESSING ::
  match parseLinkHash lz hash with
  | none => [TraceEv.stateSet SessState.INIT]
  | some data =>
    if ¬(data.truthy ∧ (data.getField "s").truthy ∧ (data.getField "k").truthy) then
      [TraceEv.stateSet SessState.INIT]
    else
      match fe.env.importKey (data.getField "k") with
      | none => [TraceEv.stateSet SessState.INIT]
      | some _ =>
        if ¬ fe.env.acceptRemote (data.getField "s") then
          [TraceEv.stateSet SessState.INIT]
        else
          observedIce fe.g0 fe.ices
          ++ match waitForIce fe.g0 fe.ices with
             | none => []
             | some _ =>
               TraceEv.resumed ::
               match btoa (jsonStringify fe.env.localDesc) with
               | none => [TraceEv.stateSet SessState.INIT]
               | some answer =>
                 [TraceEv.tokenEmitted answer,
                  TraceEv.stateSet SessState.GUEST_ANSWER_READY]

theorem observedIce_shape (g0 : GatherState) (ices : List GatherState) :
    ∀ e ∈ observedIce g0 ices, ∃ g, e = TraceEv.iceObserved g := by
  intro e he
  unfold observedIce at he
  rcases hw : waitForIce g0 ices with _ | n
  · rw [hw] at he
    obtain ⟨g, _, rfl⟩ := List.mem_map.mp he
    exact ⟨g, rfl⟩
  · rw [hw] at he
    cases n with
    | zero => simp at he
    | succ m =>
      obtain ⟨g, _, rfl⟩ := List.mem_map.mp he
      exact ⟨g, rfl⟩

theorem observedIce_complete (g0 : GatherState) (ices : List GatherState) (n : Nat)
    (hw : waitForIce g0 ices = some n) :
    g0 = GatherState.complete ∨ TraceEv.iceObserved GatherState.complete ∈ observedIce g0 ices := by
  by_cases hg : g0 = GatherState.complete
  · exact Or.inl hg
  · right
    unfold waitForIce at hw
    rw [if_neg hg] at hw
    simp only [Option.map_eq_some'] at hw
    obtain ⟨m, hm, rfl⟩ := hw
    obtain ⟨h1, _⟩ := waitForIceLoop_spec ices m hm
    have hmem : GatherState.complete ∈ ices.take (m + 1) := by
      have hg2 : (ices.take (m + 1)).get? m = some GatherState.complete := by
        rw [List.get?_take (by omega)]
        exact h1
      exact List.get?_mem hg2
    unfold observedIce waitForIce
    rw [if_neg hg]
    rw [show waitForIceLoop ices = some m from hm]
    simpa using List.mem_map_of_mem TraceEv.iceObserved hmem

/-- Trace events that are neither the resumption nor a token emission. -/
def benign (e : TraceEv) : Prop :=
  (∃ s, e = TraceEv.stateSet s) ∨ e = TraceEv.keyGenerated ∨ e = TraceEv.offerCreated
  ∨ ∃ g, e = TraceEv.iceObserved g

theorem benign_resume_token (pre : List TraceEv) (hb : ∀ e ∈ pre, benign e) :
    TraceEv.resumed ∉ pre ∧ ∀ t, TraceEv.tokenEmitted t ∉ pre := by
  constructor
  · intro h
    rcases hb _ h with ⟨s, he⟩ | he | he | ⟨g, he⟩ <;> simp at he
  · intro t h
    rcases hb _ h with ⟨s, he⟩ | he | he | ⟨g, he⟩ <;> simp at he

theorem token_mem_post (pre post : List TraceEv) (tok : String)
    (hpre : ∀ t, TraceEv.tokenEmitted t ∉ pre)
    (htok : TraceEv.tokenEmitted tok ∈ pre ++ TraceEv.resumed :: post) :
    TraceEv.tokenEmitted tok ∈ post := by
  rcases List.mem_append.mp htok with h | h
  · exact absurd h (hpre tok)
  · rcases List.mem_cons.mp h with h | h
    · exact absurd h (by simp)
    · exact h

theorem benign_observedIce (g0 : GatherState) (ices : List GatherState) :
    ∀ e ∈ observedIce g0 ices, benign e := by
  intro e he
  obtain ⟨g, rfl⟩ := observedIce_shape g0 ices e he
  exact Or.inr (Or.inr (Or.inr ⟨g, rfl⟩))

/-- C9: in both the Host and the Guest flow no token is produced before the
transport signals gathering completion.  First conjunct: the `waitForIce`
suspension resumes exactly on completion — immediately when the state is
already `complete`, else at the first completion event and never before, and
not at all when completion never arrives.  Second and third conjuncts: in
every Host (resp. Guest) run whose trace emits a token, the trace splits
around a single resumption — no resumption and no token before it, no second
resumption after it — the token lies after the resumption, and the
resumption itself is preceded by observed gathering completion (or the state
was already complete when the wait began). -/
theorem c9_token_after_gathering :
    (∀ (g0 : GatherState) (es : List GatherState) (n : Nat), waitForIce g0 es = some n →
      (n = 0 ∧ g0 = GatherState.complete)
      ∨ (∃ m, n = m + 1 ∧ g0 ≠ GatherState.complete
          ∧ es.get? m = some GatherState.complete
          ∧ ∀ j, j < m → es.get? j ≠ some GatherState.complete))
    ∧ (∀ (lz : LZCodec) (env : HostEnv) (tok : String),
        TraceEv.tokenEmitted tok ∈ startHostTrace lz env →
        ∃ pre post, startHostTrace lz env = pre ++ TraceEv.resumed :: post
          ∧ TraceEv.resumed ∉ pre ∧ TraceEv.resumed ∉ post
          ∧ (∀ t, TraceEv.tokenEmitted t ∉ pre)
          ∧ TraceEv.tokenEmitted tok ∈ post
          ∧ (env.g0 = GatherState.complete
             ∨ TraceEv.iceObserved GatherState.complete ∈ pre))
    ∧ (∀ (Key : Type) (lz : LZCodec) (fe : GuestFlowEnv Key) (hash : String) (tok : String),
        TraceEv.tokenEmitted tok ∈ guestLoadTrace lz fe hash →
        ∃ pre post, guestLoadTrace lz fe hash = pre ++ TraceEv.resumed :: post
          ∧ TraceEv.resumed ∉ pre ∧ TraceEv.resumed ∉ post
          ∧ (∀ t, TraceEv.tokenEmitted t ∉ pre)
          ∧ TraceEv.tokenEmitted tok ∈ post
          ∧ (fe.g0 = GatherState.complete
             ∨ TraceEv.iceObserved GatherState.complete ∈ pre)) := by
  refine ⟨?_, ?_, ?_⟩
  · intro g0 es n hw
    unfold waitForIce at hw
    by_cases hg : g0 = GatherState.complete
    · rw [if_pos hg] at hw
      exact Or.inl ⟨(Option.some.injEq _ _).mp hw.symm, hg⟩
    · rw [if_neg hg] at hw
      obtain ⟨m, hm, rfl⟩ := Option.map_eq_some'.mp hw
      obtain ⟨h1, h2⟩ := waitForIceLoop_spec es m hm
      exact Or.inr ⟨m, rfl, hg, h1, h2⟩
  · intro lz env tok htok
    cases hw : waitForIce env.g0 env.ices with
    | none =>
      exfalso
      unfold startHostTrace at htok
      rw [hw] at htok
      simp only [List.append_nil, List.mem_append] at htok
      rcases htok with h | h
      · simp at h
      · obtain ⟨g, hg⟩ := observedIce_shape _ _ _ h
        simp at hg
    | some n =>
      have hb : ∀ e ∈ [TraceEv.stateSet SessState.HOST_GENERATING, TraceEv.keyGenerated,
          TraceEv.offerCreated] ++ observedIce env.g0 env.ices, benign e := by
        intro e he
        rcases List.mem_append.mp he with h | h
        · simp only [List.mem_cons, List.not_mem_nil, or_false] at h
          rcases h with h | h | h
          · exact Or.inl ⟨_, h⟩
          · exact Or.inr (Or.inl h)
          · exact Or.inr (Or.inr (Or.inl h))
        · exact benign_observedIce _ _ _ h
      obtain ⟨hnr, hnt⟩ := benign_resume_token _ hb
      have heq : startHostTrace lz env
          = ([TraceEv.stateSet SessState.HOST_GENERATING, TraceEv.keyGenerated,
              TraceEv.offerCreated] ++ observedIce env.g0 env.ices)
            ++ TraceEv.resumed ::
              [TraceEv.tokenEmitted (env.origin ++ env.pathname ++ "#"
                ++ generateLinkHash lz env.localDesc env.rawKey),
               TraceEv.stateSet SessState.HOST_WAITING] := by
        unfold startHostTrace
        rw [hw]
      refine ⟨_, _, heq, hnr, by simp, hnt, ?_, ?_⟩
      · rw [heq] at htok
        exact token_mem_post _ _ _ hnt htok
      · rcases observedIce_complete env.g0 env.ices n hw with h | h
        · exact Or.inl h
        · exact Or.inr (List.mem_append_right _ h)
  · intro Key lz fe hash tok htok
    unfold guestLoadTrace at htok ⊢
    cases hp : parseLinkHash lz hash with
    | none =>
      rw [hp] at htok
      simp at htok
    | some data =>
      rw [hp] at htok
      by_cases hfields : data.truthy ∧ (data.getField "s").truthy
          ∧ (data.getField "k").truthy
      case neg => simp [hfields] at htok
      case pos =>
      cases hi : fe.env.importKey (data.getField "k") with
      | none => simp [hfields, hi] at htok
      | some key =>
        by_cases hacc : fe.env.acceptRemote (data.getField "s") = true
        case neg => simp [hfields, hi, hacc] at htok
        case pos =>
        have hb : ∀ e ∈ TraceEv.stateSet SessState.GUEST_PROCESSING
            :: observedIce fe.g0 fe.ices, benign e := by
          intro e he
          rcases List.mem_cons.mp he with h | h
          · exact Or.inl ⟨_, h⟩
          · exact benign_observedIce _ _ _ h
        obtain ⟨hnr, hnt⟩ := benign_resume_token _ hb
        cases hw : waitForIce fe.g0 fe.ices with
        | none =>
          exfalso
          simp only [hfields, hi, hacc, hw, and_self, ite_true, not_true_eq_false,
            ite_false, if_neg, List.append_nil] at htok
          rcases List.mem_cons.mp htok with h | h
          · simp at h
          · obtain ⟨g, hg⟩ := observedIce_shape _ _ _ h
            simp at hg
        | some n =>
          simp only [hfields, hi, hacc, hw, and_self, ite_true, not_true_eq_false,
            ite_false, if_neg] at htok ⊢
          cases hbtoa : btoa (jsonStringify fe.env.localDesc) with
          | none =>
            exfalso
            rw [hbtoa] at htok
            have hmem := token_mem_post (TraceEv.stateSet SessState.GUEST_PROCESSING
              :: observedIce fe.g0 fe.ices) [TraceEv.stateSet SessState.INIT] tok hnt
              (by simpa using htok)
            simp at hmem
          | some answer =>
            rw [hbtoa] at htok
            refine ⟨TraceEv.stateSet SessState.GUEST_PROCESSING
                :: observedIce fe.g0 fe.ices,
              [TraceEv.tokenEmitted answer,
               TraceEv.stateSet SessState.GUEST_ANSWER_READY],
              by simp, hnr, by simp, hnt, ?_, ?_⟩
            · exact token_mem_post _ _ _ hnt (by simpa using htok)
            · rcases observedIce_complete fe.g0 fe.ices n hw with h | h
              · exact Or.inl h
              · exact Or.inr (List.mem_cons_of_mem _ h)

/-- A concrete host run: gathering completes on the second ICE event. -/
def hostEnv0 : HostEnv :=
  ⟨"KEY", Json.null, GatherState.gathering,
   [GatherState.gathering, GatherState.complete], "", ""⟩

/-- Witness for C9: in the concrete host run the trace splits around the
single resumption, with the completion observed before it and the invite
token emitted only after it. -/
theorem c9_witness :
    ∃ pre post, startHostTrace idLZ hostEnv0 = pre ++ TraceEv.resumed :: post
      ∧ TraceEv.resumed ∉ pre ∧ TraceEv.resumed ∉ post
      ∧ (∀ t, TraceEv.tokenEmitted t ∉ pre)
      ∧ TraceEv.tokenEmitted ("" ++ "" ++ "#" ++ generateLinkHash idLZ Json.null "KEY")
          ∈ post
      ∧ (hostEnv0.g0 = GatherState.complete
         ∨ TraceEv.iceObserved GatherState.complete ∈ pre) :=
  c9_token_after_gathering.2.1 idLZ hostEnv0 _
    (by simp [startHostTrace, observedIce, waitForIce, waitForIceLoop, hostEnv0])

end SecureSync
